import Mathlib

/-!
Verification development for the yokatlas-scraper repository.

The Python sources are shallowly embedded below:
* string helpers model the exact Python primitives used by the code
  (`str.strip`, `str.split(sep)[k]`, `str.rstrip('#')`, `str.startswith`,
  `str.endswith`, `int(...)`, `str.isdigit`);
* `finalize.py` is embedded by `normalize_quota_status`,
  `normalize_attributes` and `process_entry`;
* `main.py` is embedded by `extract_colored_values`, `parse_attributes`,
  `extractCode`, `parse_row`, `scrape_current_page` and `scrape_all_pages`,
  with HTML cells abstracted to the views the code reads from them.
-/

namespace Yokatlas

/-- ASCII whitespace recognized by Python's `str.strip` / `\s`
(space, tab, newline, carriage return, vertical tab, form feed). -/
def pyIsSpace (c : Char) : Bool :=
  c == ' ' || c == '\t' || c == '\n' || c == '\r' || c == '\x0b' || c == '\x0c'

/-- `str.strip()` on a character list: drop whitespace from both ends. -/
def pyStripList (l : List Char) : List Char :=
  ((l.dropWhile pyIsSpace).reverse.dropWhile pyIsSpace).reverse

/-- Python `s.strip()`. -/
def pyStrip (s : String) : String := ⟨pyStripList s.data⟩

/-- Python `s.startswith(pre)`: `pre` is a prefix of `s`. -/
def pyStartsWith (s pre : String) : Bool := pre.data.isPrefixOf s.data

/-- Python `s.endswith(suf)`: `suf` is a suffix of `s`. -/
def pyEndsWith (s suf : String) : Bool := suf.data.isSuffixOf s.data

/-- Python `s.rstrip('#')`: remove every trailing `'#'`. -/
def rstripHash (s : String) : String :=
  ⟨(s.data.reverse.dropWhile (· == '#')).reverse⟩

/-- Python `s.split(sep)` for a single-character separator `sep`:
the maximal `sep`-free segments, including empty ones
(`"".split(sep) == [""]`, `"+".split('+') == ["", ""]`). -/
def splitChar (sep : Char) : List Char → List (List Char)
  | [] => [[]]
  | c :: rest =>
    let r := splitChar sep rest
    if c = sep then [] :: r
    else
      match r with
      | [] => [[c]]
      | a :: as => (c :: a) :: as

/-- `s.split('+')[0]`: the part of `s` before the first `'+'`. -/
def splitPlusHead (s : String) : String := ⟨(splitChar '+' s.data).headD []⟩

/-- Numeric value of a digit list (most significant digit first). -/
def digitsVal (l : List Char) : Nat :=
  l.foldl (fun a c => a * 10 + (c.toNat - '0'.toNat)) 0

/-- Digit run possibly containing single underscores between digits,
as accepted by Python's `int` after the optional sign. -/
def validUnderscoreNum : List Char → Bool
  | [] => false
  | c :: rest => c.isDigit && validUnderscoreNumTail rest
where validUnderscoreNumTail : List Char → Bool
  | [] => true
  | '_' :: [] => false
  | '_' :: c :: rest => c.isDigit && validUnderscoreNumTail rest
  | c :: rest => c.isDigit && validUnderscoreNumTail rest

/-- Python `int(s)` for ASCII decimal literals: optional surrounding
whitespace, optional sign, then digits (single underscores allowed
between digits); `none` models the `ValueError` raised otherwise. -/
def pyInt (s : String) : Option Int :=
  let l := pyStripList s.data
  match l with
  | '+' :: rest =>
    if validUnderscoreNum rest then some (Int.ofNat (digitsVal (rest.filter (· != '_')))) else none
  | '-' :: rest =>
    if validUnderscoreNum rest then some (-(Int.ofNat (digitsVal (rest.filter (· != '_'))))) else none
  | _ =>
    if validUnderscoreNum l then some (Int.ofNat (digitsVal (l.filter (· != '_')))) else none

/-! ## finalize.py : quota-status normalization -/

/-- `normalize_quota_status` from `finalize.py`, line for line:
strip a trailing `'#'` marker; otherwise, for an empty raw value,
use the `max_rank` sentinel, then compare the leading integers of
`total_quota[0]` and `filled_quota[0]` (a `filled_quota[0]` starting
with `"Doldu"` short-circuits, but only after `total_quota[0]` has
already been parsed, since Python evaluates `int(total_quota[0]...)`
first); any `ValueError` yields `"Doldu"`; otherwise pass through. -/
def normalize_quota_status (quota_status : String)
    (max_rank total_quota filled_quota : List String) : String :=
  if quota_status ≠ "" ∧ pyEndsWith quota_status "#" = true then
    rstripHash quota_status
  else if quota_status = "" ∧ max_rank.head? = some "Dolmadı" then
    "Dolmadı"
  else if quota_status = "" ∧ total_quota ≠ [] ∧ filled_quota ≠ [] then
    match pyInt (splitPlusHead (total_quota.headD "")) with
    | none => "Doldu"
    | some total_first =>
      if pyStartsWith (filled_quota.headD "") "Doldu" = true then "Doldu"
      else
        match pyInt (splitPlusHead (filled_quota.headD "")) with
        | none => "Doldu"
        | some filled_first =>
          if total_first ≤ filled_first then "Doldu" else "Dolmadı"
  else quota_status

/-- Quota-status normalization as the specification words it, claim C1:
(1) a raw value ending in `'#'` has the marker stripped and is returned;
(2) an empty raw value with `max_rank[0] = "Dolmadı"` gives `"Dolmadı"`;
(3) an empty raw value with both first slots present compares their
leading integers, except that a `filled_quota[0]` beginning with
`"Doldu"` yields `"Doldu"` without comparison; (4) failed parsing at
step 3 gives `"Doldu"`; (5) otherwise the raw value passes through. -/
def normalize_quota_status_spec (quota_status : String)
    (max_rank total_quota filled_quota : List String) : String :=
  if pyEndsWith quota_status "#" = true then
    rstripHash quota_status
  else if quota_status = "" ∧ max_rank.head? = some "Dolmadı" then
    "Dolmadı"
  else if quota_status = "" then
    match total_quota.head?, filled_quota.head? with
    | some t0, some f0 =>
      if pyStartsWith f0 "Doldu" = true then "Doldu"
      else
        match pyInt (splitPlusHead t0), pyInt (splitPlusHead f0) with
        | some total_first, some filled_first =>
          if total_first ≤ filled_first then "Doldu" else "Dolmadı"
        | _, _ => "Doldu"
    | _, _ => quota_status
  else quota_status

theorem pyEndsWith_empty_hash : pyEndsWith "" "#" = false := by decide

/-- `normalize_quota_status` agrees with the specification's rules. -/
theorem normalize_quota_status_eq_spec (q : String)
    (mr tq fq : List String) :
    normalize_quota_status q mr tq fq = normalize_quota_status_spec q mr tq fq := by
  by_cases hq : q = ""
  · subst hq
    simp only [normalize_quota_status, normalize_quota_status_spec,
      pyEndsWith_empty_hash, ne_eq, not_true_eq_false, false_and, if_false,
      true_and, if_true]
    by_cases hmr : mr.head? = some "Dolmadı"
    · simp [hmr]
    · simp only [hmr, if_false]
      cases tq with
      | nil => simp
      | cons t0 ts =>
        cases fq with
        | nil => simp
        | cons f0 fs =>
          simp only [List.head?_cons, List.headD_cons, ne_eq, reduceCtorEq,
            not_false_eq_true, and_self, if_true]
          by_cases hst : pyStartsWith f0 "Doldu" = true
          · cases pyInt (splitPlusHead t0) <;> simp [hst]
          · cases pyInt (splitPlusHead t0) <;>
              cases pyInt (splitPlusHead f0) <;> simp [hst]
  · by_cases he : pyEndsWith q "#" = true
    · simp [normalize_quota_status, normalize_quota_status_spec, hq, he]
    · simp [normalize_quota_status, normalize_quota_status_spec, hq, he]

/-- C1: quota-status normalization follows the spec's priority order
(marker strip, sentinel, numeric comparison with the `"Doldu"`
short-circuit, conservative `"Doldu"` fallback, raw passthrough), and
the five §8 test equalities hold. -/
theorem c1_quota_status_normalization (q : String) (mr tq fq : List String) :
    normalize_quota_status q mr tq fq = normalize_quota_status_spec q mr tq fq
    ∧ normalize_quota_status "Doldu#" [] [] [] = "Doldu"
    ∧ normalize_quota_status "" ["Dolmadı"] [] [] = "Dolmadı"
    ∧ normalize_quota_status "" [] ["10"] ["10"] = "Doldu"
    ∧ normalize_quota_status "" [] ["10"] ["8"] = "Dolmadı"
    ∧ normalize_quota_status "" [] ["10"] ["Doldu-2"] = "Doldu" :=
  ⟨normalize_quota_status_eq_spec q mr tq fq,
   by decide, by decide, by decide, by decide, by decide⟩

/-! ## finalize.py : attribute re-splitting -/

/-- The per-token body of `normalize_attributes` from `finalize.py`:
if the token contains both `')'` and `'('`, split on `')'`, emit the
stripped part before the first `')'`, rejoin the rest with `')'`, and
either split that remainder once on `'('` (emitting the stripped middle
part and the second `'('`-segment with every `')'` removed) or emit the
stripped remainder whole; tokens without both characters pass through. -/
def resplitToken (attr : String) : List String :=
  if attr.data.contains ')' && attr.data.contains '(' then
    let parts := splitChar ')' attr.data
    if 2 ≤ parts.length then
      let first_part := pyStrip ⟨parts.headD []⟩
      let front := if first_part = "" then [] else [first_part]
      let remaining := List.intercalate [')'] parts.tail
      if remaining.contains '(' then
        let middle_and_last := splitChar '(' remaining
        let middle_part := pyStrip ⟨middle_and_last.headD []⟩
        let mid := if middle_part = "" then [] else [middle_part]
        let tailParts :=
          if 1 < middle_and_last.length then
            let last_part :=
              pyStrip ⟨((middle_and_last.get? 1).getD []).filter (fun c => c != ')')⟩
            if last_part = "" then [] else [last_part]
          else []
        front ++ mid ++ tailParts
      else
        let rem := pyStrip ⟨remaining⟩
        front ++ (if rem = "" then [] else [rem])
    else [attr]
  else [attr]

/-- `normalize_attributes` from `finalize.py`: every token is replaced
in place by its re-split parts. -/
def normalize_attributes (attributes : List String) : List String :=
  (attributes.map resplitToken).flatten

/-- The re-split rule as observable behavior, stated with direct prefix
and suffix operations instead of split and join: the part before the
first `')'`; then, when the remainder after that `')'` contains `'('`,
the part between the `')'` and the first following `'('` and the
segment after that `'('` (up to the next `'('`) with every `')'`
removed; otherwise the whole remainder — each part stripped, empty
parts dropped. -/
def resplitSpec (attr : String) : List String :=
  if attr.data.contains ')' && attr.data.contains '(' then
    let before := attr.data.takeWhile (fun c => c != ')')
    let rest := (attr.data.dropWhile (fun c => c != ')')).tail
    let pieces :=
      if rest.contains '(' then
        let mid := rest.takeWhile (fun c => c != '(')
        let afterOpen := (rest.dropWhile (fun c => c != '(')).tail
        [before, mid, (afterOpen.takeWhile (fun c => c != '(')).filter (fun c => c != ')')]
      else [before, rest]
    (pieces.map (fun l => pyStrip ⟨l⟩)).filter (fun s => !(s == ""))
  else [attr]

/-- The claim's trigger condition read literally: the token contains a
`')'` that is followed, further right, by a `'('`. -/
def containsCloseThenOpen (attr : String) : Bool :=
  ((attr.data.dropWhile (fun c => c != ')')).tail).contains '('

theorem splitChar_ne_nil (sep : Char) (l : List Char) : splitChar sep l ≠ [] := by
  cases l with
  | nil => simp [splitChar]
  | cons c rest =>
    simp only [splitChar]
    split
    · simp
    · split <;> simp

theorem splitChar_headD (sep : Char) (l : List Char) :
    (splitChar sep l).headD [] = l.takeWhile (fun c => c != sep) := by
  induction l with
  | nil => rfl
  | cons c rest ih =>
    by_cases h : c = sep
    · subst h
      simp [splitChar, List.takeWhile_cons]
    · cases hsc : splitChar sep rest with
      | nil => exact absurd hsc (splitChar_ne_nil sep rest)
      | cons a as =>
        have hb : (c != sep) = true := by simp [h]
        simp only [splitChar, if_neg h, hsc, List.headD_cons, List.takeWhile_cons, hb]
        rw [← ih, hsc]
        rfl

theorem intercalate_cons_cons (sep : List Char) (x y : List Char)
    (zs : List (List Char)) :
    List.intercalate sep (x :: y :: zs) = x ++ sep ++ List.intercalate sep (y :: zs) := by
  simp [List.intercalate, List.intersperse]

theorem splitChar_intercalate (sep : Char) (l : List Char) :
    List.intercalate [sep] (splitChar sep l) = l := by
  induction l with
  | nil => rfl
  | cons c rest ih =>
    cases hsc : splitChar sep rest with
    | nil => exact absurd hsc (splitChar_ne_nil sep rest)
    | cons a as =>
      by_cases h : c = sep
      · subst h
        rw [show splitChar c (c :: rest) = [] :: a :: as by
              simp [splitChar, hsc]]
        rw [intercalate_cons_cons, ← hsc, ih]
        rfl
      · rw [show splitChar sep (c :: rest) = (c :: a) :: as by
              simp [splitChar, if_neg h, hsc]]
        cases as with
        | nil =>
          have : List.intercalate [sep] [a] = a := by
            simp [List.intercalate, List.intersperse]
          have ha : a = rest := by
            rw [hsc] at ih
            simpa [this] using ih
          simp [List.intercalate, List.intersperse, ha]
        | cons a2 as2 =>
          rw [intercalate_cons_cons]
          rw [hsc, intercalate_cons_cons] at ih
          simp only [List.cons_append, List.append_assoc] at ih ⊢
          rw [ih]

theorem splitChar_tail_intercalate (sep : Char) (l : List Char) :
    List.intercalate [sep] ((splitChar sep l).tail)
      = (l.dropWhile (fun c => c != sep)).tail := by
  induction l with
  | nil => rfl
  | cons c rest ih =>
    by_cases h : c = sep
    · subst h
      rw [show splitChar c (c :: rest) = [] :: splitChar c rest by simp [splitChar]]
      rw [show List.dropWhile (fun x => x != c) (c :: rest) = c :: rest by
            simp [List.dropWhile_cons]]
      simpa using splitChar_intercalate c rest
    · cases hsc : splitChar sep rest with
      | nil => exact absurd hsc (splitChar_ne_nil sep rest)
      | cons a as =>
        have hb : (c != sep) = true := by simp [h]
        rw [show splitChar sep (c :: rest) = (c :: a) :: as by
              simp [splitChar, if_neg h, hsc]]
        rw [show List.dropWhile (fun x => x != sep) (c :: rest)
              = List.dropWhile (fun x => x != sep) rest by
            simp [List.dropWhile_cons, hb]]
        rw [← ih, hsc]
        rfl

theorem splitChar_tail_of_contains (sep : Char) (l : List Char)
    (h : l.contains sep = true) :
    (splitChar sep l).tail
      = splitChar sep ((l.dropWhile (fun c => c != sep)).tail) := by
  induction l with
  | nil => simp [List.contains] at h
  | cons c rest ih =>
    by_cases hc : c = sep
    · subst hc
      rw [show splitChar c (c :: rest) = [] :: splitChar c rest by simp [splitChar]]
      rw [show List.dropWhile (fun x => x != c) (c :: rest) = c :: rest by
            simp [List.dropWhile_cons]]
      rfl
    · have hrest : rest.contains sep = true := by
        simp only [List.contains_cons] at h
        rcases Bool.or_eq_true_iff.mp h with h1 | h1
        · exact absurd (eq_of_beq h1).symm hc
        · exact h1
      cases hsc : splitChar sep rest with
      | nil => exact absurd hsc (splitChar_ne_nil sep rest)
      | cons a as =>
        have hb : (c != sep) = true := by simp [hc]
        rw [show splitChar sep (c :: rest) = (c :: a) :: as by
              simp [splitChar, if_neg hc, hsc]]
        rw [show List.dropWhile (fun x => x != sep) (c :: rest)
              = List.dropWhile (fun x => x != sep) rest by
            simp [List.dropWhile_cons, hb]]
        rw [← ih hrest, hsc]
        rfl

theorem splitChar_of_not_contains (sep : Char) (l : List Char)
    (h : l.contains sep = false) : splitChar sep l = [l] := by
  induction l with
  | nil => rfl
  | cons c rest ih =>
    simp only [List.contains_cons, Bool.or_eq_false_iff] at h
    have hc : ¬ (c = sep) := by
      intro hcc
      subst hcc
      simp at h
    rw [show splitChar sep (c :: rest) = (c :: (splitChar sep rest).headD []) ::
          (splitChar sep rest).tail by
        cases hsc : splitChar sep rest with
        | nil => exact absurd hsc (splitChar_ne_nil sep rest)
        | cons a as => simp [splitChar, if_neg hc, hsc]]
    rw [ih h.2]
    simp

theorem two_le_splitChar_length (sep : Char) (l : List Char)
    (h : l.contains sep = true) : 2 ≤ (splitChar sep l).length := by
  induction l with
  | nil => simp [List.contains] at h
  | cons c rest ih =>
    by_cases hc : c = sep
    · subst hc
      rw [show splitChar c (c :: rest) = [] :: splitChar c rest by simp [splitChar]]
      have := splitChar_ne_nil c rest
      have hlen : 1 ≤ (splitChar c rest).length := by
        cases hsc : splitChar c rest with
        | nil => exact absurd hsc this
        | cons a as => simp
      simpa using Nat.succ_le_succ hlen
    · have hrest : rest.contains sep = true := by
        simp only [List.contains_cons] at h
        rcases Bool.or_eq_true_iff.mp h with h1 | h1
        · exact absurd (eq_of_beq h1).symm hc
        · exact h1
      cases hsc : splitChar sep rest with
      | nil => exact absurd hsc (splitChar_ne_nil sep rest)
      | cons a as =>
        rw [show splitChar sep (c :: rest) = (c :: a) :: as by
              simp [splitChar, if_neg hc, hsc]]
        have := ih hrest
        rw [hsc] at this
        simpa using this

theorem splitChar_get_one (sep : Char) (l : List Char)
    (h : l.contains sep = true) :
    (splitChar sep l).get? 1
      = some (((l.dropWhile (fun c => c != sep)).tail).takeWhile (fun c => c != sep)) := by
  have htail := splitChar_tail_of_contains sep l h
  cases hsc : splitChar sep l with
  | nil => exact absurd hsc (splitChar_ne_nil sep l)
  | cons a as =>
    have has : as = splitChar sep ((l.dropWhile (fun c => c != sep)).tail) := by
      rw [← htail, hsc]
      rfl
    cases hsc2 : splitChar sep ((l.dropWhile (fun c => c != sep)).tail) with
    | nil => exact absurd hsc2 (splitChar_ne_nil sep _)
    | cons b bs =>
      rw [has, hsc2]
      have hb : b = (splitChar sep ((l.dropWhile (fun c => c != sep)).tail)).headD [] := by
        rw [hsc2]
        rfl
      rw [show (a :: b :: bs).get? 1 = some b from rfl, hb, splitChar_headD]

theorem one_lt_splitChar_length (sep : Char) (l : List Char)
    (h : l.contains sep = true) : 1 < (splitChar sep l).length :=
  two_le_splitChar_length sep l h

/-- The source re-split body equals its observable-behavior form. -/
theorem resplitToken_eq_spec (attr : String) : resplitToken attr = resplitSpec attr := by
  by_cases hc : (attr.data.contains ')' && attr.data.contains '(') = true
  · have hcp : attr.data.contains ')' = true := (Bool.and_eq_true_iff.mp hc).1
    have h2 : 2 ≤ (splitChar ')' attr.data).length :=
      two_le_splitChar_length ')' attr.data hcp
    simp only [resplitToken, resplitSpec, hc, if_true, h2, splitChar_headD,
      splitChar_tail_intercalate]
    by_cases hrem : ((attr.data.dropWhile (fun c => c != ')')).tail).contains '(' = true
    · simp only [hrem, if_true, splitChar_headD,
        one_lt_splitChar_length '(' _ hrem,
        splitChar_get_one '(' _ hrem]
      simp only [Option.getD_some, List.map_cons, List.map_nil,
        List.filter_cons, List.filter_nil]
      by_cases hfp : pyStrip ⟨attr.data.takeWhile (fun c => c != ')')⟩ = "" <;>
        by_cases hmp : pyStrip
          ⟨((attr.data.dropWhile (fun c => c != ')')).tail).takeWhile (fun c => c != '(')⟩ = "" <;>
        by_cases hlp : pyStrip
          ⟨((((attr.data.dropWhile (fun c => c != ')')).tail).dropWhile
              (fun c => c != '(')).tail.takeWhile (fun c => c != '(')).filter
            (fun c => c != ')')⟩ = "" <;>
        simp [hfp, hmp, hlp]
    · simp only [hrem, if_false, Bool.false_eq_true]
      simp only [List.map_cons, List.map_nil, List.filter_cons, List.filter_nil]
      by_cases hfp : pyStrip ⟨attr.data.takeWhile (fun c => c != ')')⟩ = "" <;>
        by_cases hrp : pyStrip ⟨(attr.data.dropWhile (fun c => c != ')')).tail⟩ = "" <;>
        simp [hfp, hrp]
  · rw [resplitToken, resplitSpec, if_neg hc, if_neg hc]

/-- C4 counterexample: the token `"(a)"` contains no mixed
close-then-open pattern, yet `normalize_attributes` does not pass it
through unchanged — it rewrites it to `"(a"`. -/
theorem c4_resplit_counterexample :
    containsCloseThenOpen "(a)" = false
    ∧ normalize_attributes ["(a)"] ≠ ["(a)"]
    ∧ normalize_attributes ["(a)"] = ["(a"] := by decide

/-- C4 (amended): the re-split triggers on every token containing both
`')'` and `'('` in either order (not only on a `)...(` pattern); such a
token is replaced in place by the non-empty stripped parts among: the
text before the first `')'`; then, when the remainder after that `')'`
contains `'('`, the text between the `')'` and the first following
`'('` and the text after that `'('` up to the next `'('` with every
`')'` removed, and otherwise the whole remainder.  Tokens lacking one
of the two characters pass through unchanged, and the §8 example still
normalizes as stated. -/
theorem c4_attribute_resplit_amended (attrs : List String) :
    normalize_attributes attrs = (attrs.map resplitSpec).flatten
    ∧ normalize_attributes ["İngilizce)KKTC Uyruklu (4 Yıllık"]
        = ["İngilizce", "KKTC Uyruklu", "4 Yıllık"] := by
  constructor
  · rw [normalize_attributes,
      show resplitToken = resplitSpec from funext resplitToken_eq_spec]
  · decide

/-! ## The record shape shared by main.py and finalize.py -/

/-- One scraped program listing, with the exact keys written by
`parse_row` in `main.py` (the program name is stored under `name`). -/
structure Record where
  code : String
  university_name : String
  name : String
  attributes : List String
  city : String
  university_type : String
  scholarship_type : String
  education_type : String
  total_quota : List String
  quota_status : String
  filled_quota : List String
  max_rank : List String
  min_score : List String
  score_type : String
deriving DecidableEq

/-- `process_entry` from `finalize.py`: copy the entry, rewrite
`quota_status` through `normalize_quota_status` and `attributes`
through `normalize_attributes`; every other field is taken from the
copy untouched. -/
def process_entry (entry : Record) : Record :=
  { entry with
    quota_status := normalize_quota_status entry.quota_status
      entry.max_rank entry.total_quota entry.filled_quota,
    attributes := normalize_attributes entry.attributes }

/-! ## main.py : the field extractor

An HTML cell is abstracted to exactly the views `parse_row` reads from
it through BeautifulSoup and the web driver: the `get_text`-with-
separator token list of the code cell, the text of its anchor tags, the
text of the first `strong` tag and of the first `a` tag inside it, the
`font color=...` tags in document order, the rendered `.text` and the
raw `innerHTML` string. -/

/-- A `font` tag with a `color` attribute; `text` is its
`get_text(strip=True)` content. -/
structure FontTag where
  color : String
  text : String
deriving DecidableEq

/-- The views of one table cell used by `parse_row`. -/
structure Cell where
  textParts : List String
  anchors : List String
  strong : Option String
  strongA : Option String
  fonts : List FontTag
  text : String
  html : String
deriving DecidableEq

/-- `re.findall(r'\(([^)]+)\)', text)`: the non-empty runs of
characters other than `')'` that sit between a `'('` and the next
`')'`, scanned left to right without overlap; the accumulator holds
the characters of the currently open group in reverse. -/
def findGroupsAux : List Char → Option (List Char) → List (List Char)
  | [], _ => []
  | c :: rest, none =>
    if c = '(' then findGroupsAux rest (some []) else findGroupsAux rest none
  | c :: rest, some acc =>
    if c = ')' then
      if acc.isEmpty then findGroupsAux rest none
      else acc.reverse :: findGroupsAux rest none
    else findGroupsAux rest (some (c :: acc))

/-- All parenthesized groups of a string, as the regex finds them. -/
def findGroups (l : List Char) : List (List Char) := findGroupsAux l none

/-- `re.split(r'\)\s*\(', text)`: split at every `')'` followed by
optional whitespace and a `'('`, removing the matched separator.  The
first accumulator is the reversed current segment; the second, when
present, holds a reversed tentative separator (a `')'` plus trailing
whitespace read so far). -/
def splitCOAux : List Char → List Char → Option (List Char) → List (List Char)
  | [], acc, none => [acc.reverse]
  | [], acc, some pend => [(pend ++ acc).reverse]
  | c :: rest, acc, none =>
    if c = ')' then splitCOAux rest acc (some [')'])
    else splitCOAux rest (c :: acc) none
  | c :: rest, acc, some pend =>
    if c = '(' then acc.reverse :: splitCOAux rest [] none
    else if pyIsSpace c then splitCOAux rest acc (some (c :: pend))
    else if c = ')' then splitCOAux rest (pend ++ acc) (some [')'])
    else splitCOAux rest (c :: (pend ++ acc)) none

/-- Split a string on the `\)\s*\(` pattern. -/
def splitCO (l : List Char) : List (List Char) := splitCOAux l [] none

/-- The fixed color-key order of `extract_colored_values`: two keys for
the reduced (TYT) variant, four for the general variant. -/
def colorKeys (score_type : String) : List String :=
  if score_type = "tyt" then ["red", "blue"] else ["red", "purple", "blue", "green"]

/-- Truncation applied to a matched span's text: when it contains both
`'('` and `')'`, keep only `text.split('(')[0]`. -/
def truncParen (text : String) : String :=
  if text.data.contains '(' && text.data.contains ')' then
    ⟨(splitChar '(' text.data).headD []⟩
  else text

/-- `extract_colored_values` from `main.py`: for each color key in the
variant's fixed order, the truncated text of the first matching `font`
tag, or `""` when no tag matches. -/
def extract_colored_values (score_type : String) (fonts : List FontTag) : List String :=
  (colorKeys score_type).map fun color =>
    match fonts.find? (fun t => t.color == color) with
    | some t => truncParen t.text
    | none => ""

/-- `parse_attributes` from `main.py`: for TYT, every parenthesized
group of the `#cc0000` span's text; otherwise, the `#CC0000` span's
text with its outer parentheses stripped, split on `\)\s*\(` — in both
cases stripped and with empty parts dropped. -/
def parse_attributes (score_type : String) (fonts : List FontTag) : List String :=
  if score_type = "tyt" then
    match fonts.find? (fun t => t.color == "#cc0000") with
    | some t =>
      ((findGroups t.text.data).map (fun g => pyStrip ⟨g⟩)).filter (fun s => !(s == ""))
    | none => []
  else
    match fonts.find? (fun t => t.color == "#CC0000") with
    | some t =>
      if pyStartsWith t.text "(" && pyEndsWith t.text ")" then
        ((splitCO (t.text.data.drop 1).dropLast).map (fun g => pyStrip ⟨g⟩)).filter
          (fun s => !(s == ""))
      else []
    | none => []

/-- `extract_university_and_faculty`: the text of the first `strong`
tag, or `""`. -/
def extract_university_and_faculty (cell : Cell) : String :=
  cell.strong.getD ""

/-- `extract_program_name`: for TYT the text of the first `strong` tag;
otherwise the text of the first `a` tag inside it; `""` when the
expected structure is absent. -/
def extract_program_name (score_type : String) (cell : Cell) : String :=
  match cell.strong with
  | some strongText =>
    if score_type = "tyt" then strongText else (cell.strongA.getD "")
  | none => ""

/-- The code predicate of `parse_row`: `part.isdigit() and len(part) >= 8`. -/
def isCodeToken (part : String) : Bool :=
  (!part.data.isEmpty && part.data.all Char.isDigit) && decide (8 ≤ part.length)

/-- Code extraction from the code cell (`main.py` lines 339–363): the
first stripped text token satisfying `isCodeToken`, else the first
anchor text satisfying it, else `none`. -/
def extractCode (cell : Cell) : Option String :=
  match (cell.textParts.map pyStrip).find? isCodeToken with
  | some code => some code
  | none => cell.anchors.find? isCodeToken

/-- `parse_row` from `main.py`: skip rows below the variant's minimum
column count, locate the code in `cells[1]`, skip already-scraped
codes, then read the remaining columns at their variant-specific
offsets.  A missing index models the `IndexError` that the enclosing
`try` converts to `None`; the record is built only after every read
succeeded, so no partial record can be produced. -/
def parse_row (score_type : String) (scraped_codes : List String)
    (row : List Cell) : Option Record :=
  let min_columns := if score_type = "tyt" then 11 else 12
  if row.length < min_columns then none
  else
    match row.get? 1 with
    | none => none
    | some code_cell =>
      match extractCode code_cell with
      | none => none
      | some code =>
        if scraped_codes.contains code then none
        else
          match row.get? 2, row.get? 3, row.get? 4, row.get? 5,
              row.get? 6, row.get? 7, row.get? 8 with
          | some university_cell, some program_cell, some city_cell,
              some utype_cell, some sch_cell, some edu_cell, some tq_cell =>
            if score_type = "tyt" then
              match row.get? 9, row.get? 10, row.get? 11 with
              | some fq_cell, some ms_cell, some mr_cell =>
                some { code := code,
                       university_name := extract_university_and_faculty university_cell,
                       name := extract_program_name score_type program_cell,
                       attributes := parse_attributes score_type program_cell.fonts,
                       city := pyStrip city_cell.text,
                       university_type := pyStrip utype_cell.text,
                       scholarship_type := pyStrip sch_cell.text,
                       education_type := pyStrip edu_cell.html,
                       total_quota := extract_colored_values score_type tq_cell.fonts,
                       quota_status := "",
                       filled_quota := extract_colored_values score_type fq_cell.fonts,
                       max_rank := extract_colored_values score_type mr_cell.fonts,
                       min_score := extract_colored_values score_type ms_cell.fonts,
                       score_type := score_type }
              | _, _, _ => none
            else
              match row.get? 9, row.get? 10, row.get? 11, row.get? 12 with
              | some qs_cell, some fq_cell, some mr_cell, some ms_cell =>
                some { code := code,
                       university_name := extract_university_and_faculty university_cell,
                       name := extract_program_name score_type program_cell,
                       attributes := parse_attributes score_type program_cell.fonts,
                       city := pyStrip city_cell.text,
                       university_type := pyStrip utype_cell.text,
                       scholarship_type := pyStrip sch_cell.text,
                       education_type := pyStrip edu_cell.html,
                       total_quota := extract_colored_values score_type tq_cell.fonts,
                       quota_status := pyStrip qs_cell.html,
                       filled_quota := extract_colored_values score_type fq_cell.fonts,
                       max_rank := extract_colored_values score_type mr_cell.fonts,
                       min_score := extract_colored_values score_type ms_cell.fonts,
                       score_type := score_type }
              | _, _, _, _ => none
          | _, _, _, _, _, _, _ => none

/-! ## main.py : the pagination crawler

The in-memory crawl state holds the accumulated records and the seen
codes (a Python `set`, modeled as a list queried by membership).  The
document provider is abstracted to the list of row lists the driver
would show page by page; page advancement is modeled as always
succeeding when a next page exists, which is the path the temporal
claims are about. -/

/-- The mutable crawl state of `YokatlasUniversityScraper`. -/
structure CrawlState where
  data : List Record
  scraped_codes : List String
deriving DecidableEq

/-- `scrape_current_page`: fold `parse_row` over the page's rows,
appending each produced record and its code, and counting the new
records; a `None` outcome (including one from a caught per-row
exception) leaves the state unchanged and the loop continues. -/
def scrape_current_page (score_type : String) (s : CrawlState) :
    List (List Cell) → CrawlState × Nat
  | [] => (s, 0)
  | row :: rest =>
    match parse_row score_type s.scraped_codes row with
    | some r =>
      let res := scrape_current_page score_type
        { data := s.data ++ [r], scraped_codes := s.scraped_codes ++ [r.code] } rest
      (res.1, res.2 + 1)
    | none => scrape_current_page score_type s rest

/-- Observable crawler actions: persisting a snapshot of the in-memory
result set (`save_data`) and advancing to the next page. -/
inductive CrawlEvent where
  | save (snapshot : List Record) : CrawlEvent
  | advance : CrawlEvent
deriving DecidableEq

/-- Detects persistence events. -/
def isSave : CrawlEvent → Bool
  | CrawlEvent.save _ => true
  | CrawlEvent.advance => false

/-- The `while True` loop of `scrape_all_pages`: scrape the current
page, persist the full in-memory set, then advance if a next page
exists and otherwise stop. -/
def crawlLoop (score_type : String) : List (List (List Cell)) → CrawlState →
    CrawlState × List CrawlEvent
  | [], s => (s, [])
  | page :: rest, s =>
    let s1 := (scrape_current_page score_type s page).1
    if rest.isEmpty then (s1, [CrawlEvent.save s1.data])
    else
      let res := crawlLoop score_type rest s1
      (res.1, CrawlEvent.save s1.data :: CrawlEvent.advance :: res.2)

/-- `scrape_all_pages` from the detailed-view switch on (`main.py`
lines 519–568): when the switch succeeded the pagination loop runs
directly; when every strategy failed the code test-scrapes the current
page, stops (returning) if that found nothing, and otherwise rolls the
test records back (`self.data[:-test_scrape]`, recomputing the seen
codes from the remaining data) and falls through to the same
pagination loop. -/
def scrape_all_pages (score_type : String) (detailed_view_ok : Bool)
    (pages : List (List (List Cell))) (s : CrawlState) :
    CrawlState × List CrawlEvent :=
  if detailed_view_ok then crawlLoop score_type pages s
  else
    let res := scrape_current_page score_type s (pages.headD [])
    if res.2 = 0 then (res.1, [])
    else
      let kept := res.1.data.take (res.1.data.length - res.2)
      crawlLoop score_type pages { data := kept, scraped_codes := kept.map Record.code }

/-- The crawl state after scraping a list of pages in order without
persisting — the reference point for the persistence-trace theorem. -/
def stateAfter (score_type : String) (s : CrawlState)
    (pages : List (List (List Cell))) : CrawlState :=
  pages.foldl (fun acc page => (scrape_current_page score_type acc page).1) s

/-! ## Sample inputs used by the concrete witnesses -/

/-- A cell with no content. -/
def blankCell : Cell :=
  { textParts := [], anchors := [], strong := none, strongA := none,
    fonts := [], text := "", html := "" }

/-- A code cell carrying one text token. -/
def codeCell (code : String) : Cell :=
  { blankCell with textParts := [code] }

/-- A minimal well-formed general-variant row: 13 cells, code in
`cells[1]`. -/
def sampleRowG (code : String) : List Cell :=
  [blankCell, codeCell code] ++ List.replicate 11 blankCell

/-- A minimal well-formed reduced-variant row: 12 cells, code in
`cells[1]`. -/
def sampleRowT (code : String) : List Cell :=
  [blankCell, codeCell code] ++ List.replicate 10 blankCell

/-- The record `parse_row "say"` extracts from `sampleRowG code`. -/
def gSampleRecord (code : String) : Record :=
  { code := code, university_name := "", name := "", attributes := [],
    city := "", university_type := "", scholarship_type := "",
    education_type := "", total_quota := ["", "", "", ""],
    quota_status := "", filled_quota := ["", "", "", ""],
    max_rank := ["", "", "", ""], min_score := ["", "", "", ""],
    score_type := "say" }

/-- The record `parse_row "tyt"` extracts from `sampleRowT code`. -/
def tSampleRecord (code : String) : Record :=
  { code := code, university_name := "", name := "", attributes := [],
    city := "", university_type := "", scholarship_type := "",
    education_type := "", total_quota := ["", ""],
    quota_status := "", filled_quota := ["", ""],
    max_rank := ["", ""], min_score := ["", ""],
    score_type := "tyt" }

/-- A code cell none of whose tokens is a valid code. -/
def c3BadCell : Cell :=
  { blankCell with
    textParts := ["1234567", "abc", "12a45678"],
    anchors := ["99x", "1234"] }

/-- A 13-cell row whose code cell holds no valid code. -/
def c3BadRow : List Cell :=
  [blankCell, c3BadCell] ++ List.replicate 11 blankCell

/-- A code cell whose second text token is the first valid code. -/
def c3GoodCell : Cell :=
  { blankCell with textParts := ["abc", " 12345678 "] }

/-! ## C2 : colored-slot extraction -/

/-- C2: colored-slot extraction is total and slot-preserving — the
result always has exactly the variant's slot count (2 for TYT, 4
otherwise); slot `i` holds the truncated text of the first span tagged
with the `i`-th color key and `""` when no span matches; truncation
keeps exactly the text before the first `'('` whenever the text
contains both parentheses characters; and the §8 example holds. -/
theorem c2_colored_slot_extraction (score_type : String) (fonts : List FontTag) :
    (extract_colored_values score_type fonts).length
        = (if score_type = "tyt" then 2 else 4)
    ∧ (∀ i : Nat, (extract_colored_values score_type fonts).get? i
        = ((colorKeys score_type).get? i).map (fun color =>
            match fonts.find? (fun t => t.color == color) with
            | some t => truncParen t.text
            | none => ""))
    ∧ (∀ text : String, truncParen text
        = if text.data.contains '(' && text.data.contains ')' then
            (⟨text.data.takeWhile (fun c => c != '(')⟩ : String)
          else text)
    ∧ extract_colored_values "say" [⟨"red", "value"⟩] = ["value", "", "", ""] := by
  refine ⟨?_, ?_, ?_, by decide⟩
  · rw [extract_colored_values, List.length_map, colorKeys]
    split <;> rfl
  · intro i
    rw [extract_colored_values, List.get?_map]
  · intro text
    rw [truncParen]
    split
    · rw [splitChar_headD]
    · rfl

/-! ## C3 : code extraction -/

theorem find_first_of_forall_before {α : Type} (p : α → Bool) :
    ∀ (l : List α) (i : Nat) (a : α), l.get? i = some a → p a = true →
    (∀ j, j < i → ((l.get? j).all fun x => !(p x)) = true) →
    l.find? p = some a := by
  intro l
  induction l with
  | nil => intro i a hget; simp at hget
  | cons x xs ih =>
    intro i a hget hp hbefore
    cases i with
    | zero =>
      simp only [List.get?] at hget
      cases hget
      rw [List.find?_cons, hp]
    | succ n =>
      have hx : p x = false := by
        have h0 := hbefore 0 (Nat.succ_pos n)
        simp only [List.get?, Option.all_some] at h0
        simpa using h0
      rw [List.find?_cons, hx]
      exact ih n a hget hp fun j hj => hbefore (j + 1) (Nat.succ_lt_succ hj)

/-- C3: code extraction selects, among the stripped text tokens of the
code cell in document order, the first token that is purely numeric and
at least 8 characters long (first conjunct); if every text token fails
it falls back to the anchors scanned with the same predicate (second
conjunct); tokens shorter than 8 characters or containing a non-digit
are rejected (third conjunct); and a row whose code cell yields no code
is skipped (fourth conjunct). -/
theorem c3_code_extraction :
    (∀ (cell : Cell) (i : Nat) (code : String),
      (cell.textParts.map pyStrip).get? i = some code →
      isCodeToken code = true →
      (∀ j, j < i →
        (((cell.textParts.map pyStrip).get? j).all fun p => !(isCodeToken p)) = true) →
      extractCode cell = some code)
    ∧ (∀ cell : Cell,
        ((cell.textParts.map pyStrip).all fun p => !(isCodeToken p)) = true →
        extractCode cell = cell.anchors.find? isCodeToken)
    ∧ (∀ part : String,
        part.length < 8 ∨ part.data.all Char.isDigit = false →
        isCodeToken part = false)
    ∧ (∀ (score_type : String) (codes : List String) (row : List Cell) (cell : Cell),
        row.get? 1 = some cell → extractCode cell = none →
        parse_row score_type codes row = none) := by
  refine ⟨?_, ?_, ?_, ?_⟩
  · intro cell i code hget hp hbefore
    rw [extractCode, find_first_of_forall_before isCodeToken _ i code hget hp hbefore]
  · intro cell hall
    have hnone : (cell.textParts.map pyStrip).find? isCodeToken = none := by
      rw [List.find?_eq_none]
      intro x hx
      have := List.all_eq_true.mp hall x hx
      simpa using this
    rw [extractCode, hnone]
  · intro part h
    rcases h with h | h
    · have : decide (8 ≤ part.length) = false := by
        simp [Nat.not_le.mpr h]
      simp [isCodeToken, this]
    · simp [isCodeToken, h]
  · intro score_type codes row cell hget hnone
    rw [List.get?_eq_getElem?] at hget
    by_cases hlen : row.length < (if score_type = "tyt" then 11 else 12)
    · simp [parse_row, hlen]
    · simp [parse_row, hlen, hget, hnone]

/-- Concrete instantiation of `c3_code_extraction`: the second token of
`c3GoodCell` is selected, and the codeless row `c3BadRow` is skipped. -/
theorem c3_code_extraction_witness :
    extractCode c3GoodCell = some "12345678"
    ∧ parse_row "say" [] c3BadRow = none :=
  ⟨c3_code_extraction.1 c3GoodCell 1 "12345678" (by decide) (by decide) (by decide),
   c3_code_extraction.2.2.2 "say" [] c3BadRow c3BadCell (by decide) (by decide)⟩

/-! ## Crawl-loop structure lemmas -/

/-- Scraping a page appends a block of freshly parsed records (and
their codes) to the state and returns the block's size; every appended
record is a full `parse_row` output of some row of the page. -/
theorem scrape_spec (score_type : String) :
    ∀ (rows : List (List Cell)) (s : CrawlState), ∃ new : List Record,
      scrape_current_page score_type s rows
        = ({ data := s.data ++ new,
             scraped_codes := s.scraped_codes ++ new.map Record.code }, new.length)
      ∧ ∀ r ∈ new, ∃ row ∈ rows, ∃ codes, parse_row score_type codes row = some r := by
  intro rows
  induction rows with
  | nil =>
    intro s
    refine ⟨[], ?_, by simp⟩
    simp [scrape_current_page]
  | cons row rest ih =>
    intro s
    cases hp : parse_row score_type s.scraped_codes row with
    | none =>
      obtain ⟨new, heq, hprov⟩ := ih s
      refine ⟨new, ?_, ?_⟩
      · rw [scrape_current_page, hp, heq]
      · intro r hr
        obtain ⟨row2, hrow2, codes, hc⟩ := hprov r hr
        exact ⟨row2, List.mem_cons_of_mem _ hrow2, codes, hc⟩
    | some r =>
      obtain ⟨new, heq, hprov⟩ :=
        ih { data := s.data ++ [r], scraped_codes := s.scraped_codes ++ [r.code] }
      refine ⟨r :: new, ?_, ?_⟩
      · rw [scrape_current_page, hp]
        simp only [heq]
        simp [List.append_assoc]
      · intro r2 hr2
        rcases List.mem_cons.mp hr2 with h | h
        · subst h
          exact ⟨row, List.mem_cons_self _ _, s.scraped_codes, hp⟩
        · obtain ⟨row2, hrow2, codes, hc⟩ := hprov r2 h
          exact ⟨row2, List.mem_cons_of_mem _ hrow2, codes, hc⟩

theorem stateAfter_nil (score_type : String) (s : CrawlState) :
    stateAfter score_type s [] = s := rfl

theorem stateAfter_cons (score_type : String) (s : CrawlState)
    (page : List (List Cell)) (rest : List (List (List Cell))) :
    stateAfter score_type s (page :: rest)
      = stateAfter score_type (scrape_current_page score_type s page).1 rest := rfl

/-- Every record in the state after some pages either was there before
the crawl or is a complete `parse_row` output of a row of one of the
pages. -/
theorem stateAfter_provenance (score_type : String) :
    ∀ (pages : List (List (List Cell))) (s : CrawlState) (r : Record),
      r ∈ (stateAfter score_type s pages).data →
      r ∈ s.data ∨ ∃ page ∈ pages, ∃ row ∈ page, ∃ codes,
        parse_row score_type codes row = some r := by
  intro pages
  induction pages with
  | nil =>
    intro s r h
    exact Or.inl h
  | cons page rest ih =>
    intro s r h
    rw [stateAfter_cons] at h
    rcases ih _ r h with h1 | ⟨pg, hpg, row, hrow, codes, hc⟩
    · obtain ⟨new, heq, hprov⟩ := scrape_spec score_type page s
      rw [heq] at h1
      rcases List.mem_append.mp h1 with h2 | h2
      · exact Or.inl h2
      · obtain ⟨row, hrow, codes, hc⟩ := hprov r h2
        exact Or.inr ⟨page, List.mem_cons_self _ _, row, hrow, codes, hc⟩
    · exact Or.inr ⟨pg, List.mem_cons_of_mem _ hpg, row, hrow, codes, hc⟩

/-- The pagination loop returns the state after all pages, and its
event trace is, for each page index `k`, one persistence of the state
after pages `0..k` followed by one page advance except after the last
page. -/
theorem crawlLoop_trace (score_type : String) :
    ∀ (pages : List (List (List Cell))) (s : CrawlState),
      crawlLoop score_type pages s
        = (stateAfter score_type s pages,
           ((List.range pages.length).map fun k =>
              CrawlEvent.save (stateAfter score_type s (pages.take (k + 1))).data ::
                (if k + 1 < pages.length then [CrawlEvent.advance] else [])).flatten) := by
  intro pages
  induction pages with
  | nil =>
    intro s
    rfl
  | cons page rest ih =>
    intro s
    cases rest with
    | nil =>
      simp [crawlLoop, stateAfter, List.range_succ]
    | cons p2 r2 =>
      have hne : (p2 :: r2).isEmpty = false := rfl
      have hlen : 0 < (p2 :: r2).length := by simp
      have hstep : crawlLoop score_type (page :: p2 :: r2) s
          = ((crawlLoop score_type (p2 :: r2)
                (scrape_current_page score_type s page).1).1,
             CrawlEvent.save (scrape_current_page score_type s page).1.data ::
               CrawlEvent.advance ::
                 (crawlLoop score_type (p2 :: r2)
                   (scrape_current_page score_type s page).1).2) := by
        simp [crawlLoop, hne]
      have hfun : ((fun k =>
            CrawlEvent.save
              (stateAfter score_type s ((page :: p2 :: r2).take (k + 1))).data ::
              (if k + 1 < (p2 :: r2).length + 1 then [CrawlEvent.advance] else []))
          ∘ Nat.succ)
          = (fun k =>
            CrawlEvent.save
              (stateAfter score_type (scrape_current_page score_type s page).1
                ((p2 :: r2).take (k + 1))).data ::
              (if k + 1 < (p2 :: r2).length then [CrawlEvent.advance] else [])) := by
        funext k
        simp only [Function.comp]
        have htake : (page :: p2 :: r2).take (Nat.succ k + 1)
            = page :: (p2 :: r2).take (k + 1) := rfl
        rw [htake, stateAfter_cons]
        congr 1
        by_cases hk : k + 1 < (p2 :: r2).length
        · rw [if_pos hk, if_pos]
          exact Nat.succ_lt_succ hk
        · rw [if_neg hk, if_neg]
          intro hcon
          exact hk (Nat.lt_of_succ_lt_succ hcon)
      rw [hstep, ih]
      rw [show (page :: p2 :: r2).length = (p2 :: r2).length + 1 from rfl,
        List.range_succ_eq_map, List.map_cons, List.flatten_cons, List.map_map, hfun]
      rw [show (page :: p2 :: r2).take (0 + 1) = [page] from rfl]
      rw [if_pos (Nat.succ_lt_succ hlen)]
      rw [show stateAfter score_type s [page]
            = (scrape_current_page score_type s page).1 from rfl]
      rw [show stateAfter score_type s (page :: p2 :: r2)
            = stateAfter score_type (scrape_current_page score_type s page).1 (p2 :: r2)
          from rfl]
      rfl

/-- Each block of a flattened trace contributing exactly one
persistence event makes the flattened trace contain one persistence
event per block. -/
theorem filter_isSave_flatten :
    ∀ (blocks : List (List CrawlEvent)),
      (∀ b ∈ blocks, (b.filter isSave).length = 1) →
      ((blocks.flatten.filter isSave).length = blocks.length) := by
  intro blocks
  induction blocks with
  | nil => intro hone; rfl
  | cons b bs ih =>
    intro hone
    rw [List.flatten_cons, List.filter_append, List.length_append,
      hone b (List.mem_cons_self _ _), ih fun x hx => hone x (List.mem_cons_of_mem _ hx)]
    simp [Nat.add_comm]

/-! ## C5 : degraded view configuration -/

/-- C5 counterexample: with the detailed-view switch failed (all four
strategies exhausted) and a two-page document whose first page yields a
record, the crawler still advances past the first page and scrapes the
second — the claim that the degraded run stops after a single page is
false on the code. -/
theorem c5_degraded_counterexample :
    CrawlEvent.advance ∈
      (scrape_all_pages "say" false
        [[sampleRowG "11111111"], [sampleRowG "22222222"]] ⟨[], []⟩).2
    ∧ (scrape_all_pages "say" false
        [[sampleRowG "11111111"], [sampleRowG "22222222"]] ⟨[], []⟩).1.data
      = [gSampleRecord "11111111", gSampleRecord "22222222"] := by
  constructor
  · decide
  · decide

/-- C5 (amended): when every view-configuration strategy fails, the
crawler test-scrapes the current page; if the test yields zero records
the crawl for the score type stops non-fatally with nothing persisted;
otherwise the test records are rolled back and the crawl proceeds
through the normal multi-page loop (page advances included) exactly as
if the view switch had succeeded. -/
theorem c5_degraded_view_amended (score_type : String)
    (pages : List (List (List Cell))) (s : CrawlState) :
    ((scrape_current_page score_type s (pages.headD [])).2 = 0 →
      scrape_all_pages score_type false pages s = (s, []))
    ∧ ((scrape_current_page score_type s (pages.headD [])).2 ≠ 0 →
        s.scraped_codes = s.data.map Record.code →
        scrape_all_pages score_type false pages s
          = scrape_all_pages score_type true pages s) := by
  obtain ⟨d, c⟩ := s
  obtain ⟨new, heq, hprov⟩ := scrape_spec score_type (pages.headD []) ⟨d, c⟩
  constructor
  · intro h0
    rw [heq] at h0
    have hnew : new = [] := List.eq_nil_of_length_eq_zero h0
    subst hnew
    simp only [scrape_all_pages, Bool.false_eq_true, if_false]
    rw [heq]
    simp
  · intro hne0 hseed
    simp only at hseed
    rw [heq] at hne0
    simp only [scrape_all_pages, Bool.false_eq_true, if_false, if_true]
    rw [heq]
    simp only [if_neg hne0]
    have hkept : (d ++ new).take ((d ++ new).length - new.length) = d := by
      rw [List.length_append, Nat.add_sub_cancel]
      exact List.take_left d new
    rw [hkept, hseed]

/-- Concrete instantiation of `c5_degraded_view_amended`: a degraded
run over an unparseable page stops with nothing, and a degraded run
over two good pages equals the normal run. -/
theorem c5_degraded_view_amended_witness :
    scrape_all_pages "say" false [[]] ⟨[], []⟩ = (⟨[], []⟩, [])
    ∧ scrape_all_pages "say" false
        [[sampleRowG "11111111"], [sampleRowG "22222222"]] ⟨[], []⟩
      = scrape_all_pages "say" true
        [[sampleRowG "11111111"], [sampleRowG "22222222"]] ⟨[], []⟩ :=
  ⟨(c5_degraded_view_amended "say" [[]] ⟨[], []⟩).1 (by decide),
   (c5_degraded_view_amended "say"
      [[sampleRowG "11111111"], [sampleRowG "22222222"]] ⟨[], []⟩).2
     (by decide) (by decide)⟩

/-! ## C6 : persistence once per page -/

/-- C6: with the detailed view on, the crawler persists the full
in-memory result set exactly once per page: the event trace consists,
for each page index `k`, of one save of the state reached after pages
`0..k` followed by one advance except after the last page, so an
n-page crawl persists exactly n times; and every record of every
persisted snapshot is either a seed record or a complete `parse_row`
output of some row of the document — no partial record is persisted. -/
theorem c6_persistence_trace (score_type : String)
    (pages : List (List (List Cell))) (s : CrawlState)
    (d : List Record) (r : Record)
    (hd : CrawlEvent.save d ∈ (scrape_all_pages score_type true pages s).2)
    (hr : r ∈ d) :
    (scrape_all_pages score_type true pages s).2
      = ((List.range pages.length).map fun k =>
          CrawlEvent.save (stateAfter score_type s (pages.take (k + 1))).data ::
            (if k + 1 < pages.length then [CrawlEvent.advance] else [])).flatten
    ∧ ((scrape_all_pages score_type true pages s).2.filter isSave).length
        = pages.length
    ∧ (r ∈ s.data ∨ ∃ page ∈ pages, ∃ row ∈ page, ∃ codes,
        parse_row score_type codes row = some r) := by
  have htrue : scrape_all_pages score_type true pages s
      = crawlLoop score_type pages s := rfl
  have htrace := crawlLoop_trace score_type pages s
  refine ⟨?_, ?_, ?_⟩
  · rw [htrue, htrace]
  · rw [htrue, htrace]
    have hone : ∀ b ∈ (List.range pages.length).map fun k =>
        CrawlEvent.save (stateAfter score_type s (pages.take (k + 1))).data ::
          (if k + 1 < pages.length then [CrawlEvent.advance] else []),
        (b.filter isSave).length = 1 := by
      intro b hb
      obtain ⟨k, hk, rfl⟩ := List.mem_map.mp hb
      by_cases hc : k + 1 < pages.length <;>
        simp [hc, List.filter, isSave]
    rw [show ((stateAfter score_type s pages,
        ((List.range pages.length).map fun k =>
          CrawlEvent.save (stateAfter score_type s (pages.take (k + 1))).data ::
            (if k + 1 < pages.length then [CrawlEvent.advance] else [])).flatten) :
          CrawlState × List CrawlEvent).2
      = ((List.range pages.length).map fun k =>
          CrawlEvent.save (stateAfter score_type s (pages.take (k + 1))).data ::
            (if k + 1 < pages.length then [CrawlEvent.advance] else [])).flatten from rfl]
    rw [filter_isSave_flatten _ hone, List.length_map, List.length_range]
  · rw [htrue, htrace] at hd
    dsimp only at hd
    obtain ⟨b, hb, hdb⟩ := List.mem_flatten.mp hd
    obtain ⟨k, hk, rfl⟩ := List.mem_map.mp hb
    have hdsnap : d = (stateAfter score_type s (pages.take (k + 1))).data := by
      rcases List.mem_cons.mp hdb with h | h
      · injection h
      · exfalso
        by_cases hc : k + 1 < pages.length
        · rw [if_pos hc] at h
          simp at h
        · rw [if_neg hc] at h
          simp at h
    rw [hdsnap] at hr
    rcases stateAfter_provenance score_type (pages.take (k + 1)) s r hr with
      h | ⟨pg, hpg, row, hrow, codes, hc⟩
    · exact Or.inl h
    · exact Or.inr ⟨pg, List.take_subset _ _ hpg, row, hrow, codes, hc⟩

/-- Concrete instantiation of `c6_persistence_trace` on a one-page
document producing one record. -/
theorem c6_persistence_trace_witness :
    (scrape_all_pages "say" true [[sampleRowG "11111111"]] ⟨[], []⟩).2
      = ((List.range ([[sampleRowG "11111111"]] :
            List (List (List Cell))).length).map fun k =>
          CrawlEvent.save (stateAfter "say" ⟨[], []⟩
              ([[sampleRowG "11111111"]].take (k + 1))).data ::
            (if k + 1 < ([[sampleRowG "11111111"]] :
                List (List (List Cell))).length
             then [CrawlEvent.advance] else [])).flatten
    ∧ ((scrape_all_pages "say" true [[sampleRowG "11111111"]]
          ⟨[], []⟩).2.filter isSave).length
        = ([[sampleRowG "11111111"]] : List (List (List Cell))).length
    ∧ (gSampleRecord "11111111" ∈ (⟨[], []⟩ : CrawlState).data
        ∨ ∃ page ∈ [[sampleRowG "11111111"]], ∃ row ∈ page, ∃ codes,
            parse_row "say" codes row = some (gSampleRecord "11111111")) :=
  c6_persistence_trace "say" [[sampleRowG "11111111"]] ⟨[], []⟩
    [gSampleRecord "11111111"] (gSampleRecord "11111111") (by decide) (by decide)

/-! ## C7 : resumability -/

/-- A row is covered by the deduplicator seed when every code
extractable from its code cell is already a seen code. -/
def rowCovered (scraped : List String) (row : List Cell) : Bool :=
  match row.get? 1 with
  | some cell =>
    match extractCode cell with
    | some code => scraped.contains code
    | none => true
  | none => true

theorem parse_row_none_of_covered (score_type : String) (s : CrawlState)
    (row : List Cell) (hcov : rowCovered s.scraped_codes row = true) :
    parse_row score_type s.scraped_codes row = none := by
  by_cases hlen : row.length < (if score_type = "tyt" then 11 else 12)
  · simp [parse_row, hlen]
  · rw [rowCovered] at hcov
    cases hget : row.get? 1 with
    | none =>
      rw [List.get?_eq_getElem?] at hget
      simp [parse_row, hlen, hget]
    | some cell =>
      simp only [hget] at hcov
      rw [List.get?_eq_getElem?] at hget
      cases hcode : extractCode cell with
      | none => simp [parse_row, hlen, hget, hcode]
      | some code =>
        simp only [hcode] at hcov
        have hmem : code ∈ s.scraped_codes := by simpa using hcov
        simp [parse_row, hlen, hget, hcode, hmem]

theorem scrape_of_covered (score_type : String) :
    ∀ (rows : List (List Cell)) (s : CrawlState),
      (rows.all (rowCovered s.scraped_codes)) = true →
      scrape_current_page score_type s rows = (s, 0) := by
  intro rows
  induction rows with
  | nil =>
    intro s hall
    rfl
  | cons row rest ih =>
    intro s hall
    rw [List.all_cons, Bool.and_eq_true] at hall
    rw [scrape_current_page, parse_row_none_of_covered score_type s row hall.1]
    exact ih s hall.2

theorem stateAfter_of_covered (score_type : String) :
    ∀ (pages : List (List (List Cell))) (s : CrawlState),
      (pages.flatten.all (rowCovered s.scraped_codes)) = true →
      stateAfter score_type s pages = s := by
  intro pages
  induction pages with
  | nil =>
    intro s hcov
    rfl
  | cons page rest ih =>
    intro s hcov
    rw [List.flatten_cons, List.all_append, Bool.and_eq_true] at hcov
    rw [stateAfter_cons, scrape_of_covered score_type page s hcov.1]
    exact ih s hcov.2

/-- C7: if every code extractable from the document's rows is already
in the deduplicator seed, the crawl emits no record and the in-memory
state it ends with is exactly the seeded state. -/
theorem c7_resume_idempotent (score_type : String)
    (pages : List (List (List Cell))) (s : CrawlState)
    (hcov : (pages.flatten.all (rowCovered s.scraped_codes)) = true) :
    (scrape_all_pages score_type true pages s).1 = s := by
  have htrue : scrape_all_pages score_type true pages s
      = crawlLoop score_type pages s := rfl
  rw [htrue, crawlLoop_trace]
  exact stateAfter_of_covered score_type pages s hcov

/-- Concrete instantiation of `c7_resume_idempotent`: re-crawling a
document whose only code is already persisted adds nothing. -/
theorem c7_resume_idempotent_witness :
    (scrape_all_pages "say" true [[sampleRowG "11111111"]]
        ⟨[gSampleRecord "11111111"], ["11111111"]⟩).1
      = ⟨[gSampleRecord "11111111"], ["11111111"]⟩ :=
  c7_resume_idempotent "say" [[sampleRowG "11111111"]]
    ⟨[gSampleRecord "11111111"], ["11111111"]⟩ (by decide)

/-! ## C8 : mutation frame -/

theorem stateAfter_data_extends (score_type : String) :
    ∀ (pages : List (List (List Cell))) (s : CrawlState),
      ∃ new, (stateAfter score_type s pages).data = s.data ++ new := by
  intro pages
  induction pages with
  | nil =>
    intro s
    exact ⟨[], by simp [stateAfter_nil]⟩
  | cons page rest ih =>
    intro s
    obtain ⟨new1, heq1, _⟩ := scrape_spec score_type page s
    obtain ⟨new2, heq2⟩ := ih (scrape_current_page score_type s page).1
    refine ⟨new1 ++ new2, ?_⟩
    rw [stateAfter_cons, heq2, heq1]
    simp [List.append_assoc]

/-- C8: the Normalizer rewrites only `quota_status` and `attributes`:
`process_entry` leaves every other field of the record equal to the
input's, and the crawler never mutates a record after creation — the
records present when a crawl starts are still there, unchanged and in
place, as the prefix of the final result set. -/
theorem c8_normalizer_frame (entry : Record) (score_type : String)
    (pages : List (List (List Cell))) (s : CrawlState) :
    (process_entry entry).code = entry.code
    ∧ (process_entry entry).university_name = entry.university_name
    ∧ (process_entry entry).name = entry.name
    ∧ (process_entry entry).city = entry.city
    ∧ (process_entry entry).university_type = entry.university_type
    ∧ (process_entry entry).scholarship_type = entry.scholarship_type
    ∧ (process_entry entry).education_type = entry.education_type
    ∧ (process_entry entry).total_quota = entry.total_quota
    ∧ (process_entry entry).filled_quota = entry.filled_quota
    ∧ (process_entry entry).min_score = entry.min_score
    ∧ (process_entry entry).max_rank = entry.max_rank
    ∧ (process_entry entry).score_type = entry.score_type
    ∧ (scrape_all_pages score_type true pages s).1.data.take s.data.length
        = s.data := by
  refine ⟨rfl, rfl, rfl, rfl, rfl, rfl, rfl, rfl, rfl, rfl, rfl, rfl, ?_⟩
  have htrue : scrape_all_pages score_type true pages s
      = crawlLoop score_type pages s := rfl
  rw [htrue, crawlLoop_trace]
  show (stateAfter score_type s pages).data.take s.data.length = s.data
  obtain ⟨new, heq⟩ := stateAfter_data_extends score_type pages s
  rw [heq, List.take_left]

/-! ## C9 : row-level failure is local -/

/-- C9: a row below the variant's minimum column count (12 for the
general variant, 11 for the reduced variant) is skipped, not an error;
a row whose code cell yields no locatable code is skipped; and a row on
which `parse_row` fails under any seen-code set leaves the scrape of
the surrounding page rows unchanged — a malformed row never aborts the
page. -/
theorem c9_row_failure_local :
    (∀ (score_type : String) (codes : List String) (row : List Cell),
      row.length < (if score_type = "tyt" then 11 else 12) →
      parse_row score_type codes row = none)
    ∧ (∀ (score_type : String) (codes : List String) (row : List Cell) (cell : Cell),
        row.get? 1 = some cell → extractCode cell = none →
        parse_row score_type codes row = none)
    ∧ (∀ (score_type : String) (s : CrawlState)
        (rows1 rows2 : List (List Cell)) (bad : List Cell),
        (∀ codes, parse_row score_type codes bad = none) →
        scrape_current_page score_type s (rows1 ++ bad :: rows2)
          = scrape_current_page score_type s (rows1 ++ rows2)) := by
  refine ⟨?_, ?_, ?_⟩
  · intro score_type codes row hshort
    simp [parse_row, hshort]
  · intro score_type codes row cell hget hnone
    rw [List.get?_eq_getElem?] at hget
    by_cases hlen : row.length < (if score_type = "tyt" then 11 else 12)
    · simp [parse_row, hlen]
    · simp [parse_row, hlen, hget, hnone]
  · intro score_type s rows1 rows2 bad hbad
    induction rows1 generalizing s with
    | nil =>
      show scrape_current_page score_type s (bad :: rows2)
          = scrape_current_page score_type s rows2
      rw [scrape_current_page, hbad s.scraped_codes]
    | cons row rows ih =>
      show scrape_current_page score_type s (row :: (rows ++ bad :: rows2))
          = scrape_current_page score_type s (row :: (rows ++ rows2))
      rw [scrape_current_page, scrape_current_page]
      cases hp : parse_row score_type s.scraped_codes row with
      | none =>
        dsimp only
        exact ih _
      | some r =>
        dsimp only
        rw [ih _]

/-- Concrete instantiation of `c9_row_failure_local`: the empty row is
skipped, and inserting it between two good rows changes nothing. -/
theorem c9_row_failure_local_witness :
    parse_row "say" [] ([] : List Cell) = none
    ∧ scrape_current_page "say" ⟨[], []⟩
        ([sampleRowG "11111111"] ++ [] :: [sampleRowG "22222222"])
      = scrape_current_page "say" ⟨[], []⟩
        ([sampleRowG "11111111"] ++ [sampleRowG "22222222"]) :=
  ⟨c9_row_failure_local.1 "say" [] [] (by decide),
   c9_row_failure_local.2.2 "say" ⟨[], []⟩
     [sampleRowG "11111111"] [sampleRowG "22222222"] []
     (fun codes => c9_row_failure_local.1 "say" codes [] (by decide))⟩

/-! ## C10 : reduced-variant quota status -/

/-- The Normalizer's empty-raw-value rules on their own: sentinel
check, then numeric comparison with the `"Doldu"` short-circuit and
conservative fallback, and pass-through of the empty value when a
first slot is missing. -/
def emptyQuotaRules (max_rank total_quota filled_quota : List String) : String :=
  if max_rank.head? = some "Dolmadı" then "Dolmadı"
  else
    match total_quota.head?, filled_quota.head? with
    | some t0, some f0 =>
      match pyInt (splitPlusHead t0) with
      | none => "Doldu"
      | some total_first =>
        if pyStartsWith f0 "Doldu" = true then "Doldu"
        else
          match pyInt (splitPlusHead f0) with
          | none => "Doldu"
          | some filled_first =>
            if total_first ≤ filled_first then "Doldu" else "Dolmadı"
    | _, _ => ""

theorem normalize_empty_eq_emptyRules (mr tq fq : List String) :
    normalize_quota_status "" mr tq fq = emptyQuotaRules mr tq fq := by
  simp only [normalize_quota_status, emptyQuotaRules, pyEndsWith_empty_hash,
    ne_eq, not_true_eq_false, false_and, if_false, true_and]
  by_cases hmr : mr.head? = some "Dolmadı"
  · simp [hmr]
  · simp only [hmr, if_false]
    cases tq with
    | nil => simp
    | cons t0 ts =>
      cases fq with
      | nil => simp
      | cons f0 fs =>
        simp only [List.head?_cons, List.headD_cons, ne_eq, reduceCtorEq,
          not_false_eq_true, and_self, if_true]

/-- C10: every record the reduced-variant (TYT) extractor produces has
an empty `quota_status` — the raw document value is never read — so
the normalized quota status of such a record is determined entirely by
the Normalizer's empty-value rules. -/
theorem c10_tyt_quota_status_empty (scraped : List String) (row : List Cell)
    (r : Record) (h : parse_row "tyt" scraped row = some r) :
    r.quota_status = ""
    ∧ (process_entry r).quota_status
        = emptyQuotaRules r.max_rank r.total_quota r.filled_quota := by
  have hq : r.quota_status = "" := by
    simp only [parse_row, reduceIte] at h
    split at h <;> try exact Option.noConfusion h
    split at h <;> try exact Option.noConfusion h
    split at h <;> try exact Option.noConfusion h
    split at h <;> try exact Option.noConfusion h
    split at h <;> try exact Option.noConfusion h
    split at h <;> try exact Option.noConfusion h
    injection h with h1
    subst h1
    rfl
  refine ⟨hq, ?_⟩
  show normalize_quota_status r.quota_status r.max_rank r.total_quota r.filled_quota
      = emptyQuotaRules r.max_rank r.total_quota r.filled_quota
  rw [hq]
  exact normalize_empty_eq_emptyRules r.max_rank r.total_quota r.filled_quota

/-- Concrete instantiation of `c10_tyt_quota_status_empty`. -/
theorem c10_tyt_quota_status_empty_witness :
    (tSampleRecord "11111111").quota_status = ""
    ∧ (process_entry (tSampleRecord "11111111")).quota_status
        = emptyQuotaRules (tSampleRecord "11111111").max_rank
            (tSampleRecord "11111111").total_quota
            (tSampleRecord "11111111").filled_quota :=
  c10_tyt_quota_status_empty [] (sampleRowT "11111111")
    (tSampleRecord "11111111") (by decide)

end Yokatlas
